import Mathlib

/-!
Shallow embedding of the ThreadInstrument concurrent instrumentation engine
(`src/thread_instrument.cpp`, `include/thread_instrument/thread_instrument.h`),
restricted to the sequential semantics of its operations: each operation is a
pure function of the global state it reads and mutates.  Machine times
(`clock_t::time_point`, the `double` second counts derived from them) are
modelled as `Int`; `std::thread::id` as `Nat`; `void *` payloads as opaque
`Int` tokens; the `std::map` containers as association lists with unique keys
(or, for the printer table, as their lookup function).
-/

namespace ThreadInstrument

/-- Association-list lookup: models `std::map::find` / `ConcurrentSMap::find`
(scan from the head, first entry whose key compares equal; keys are unique in
every state the library can reach). -/
def slookup {α β : Type} [DecidableEq α] : List (α × β) → α → Option β
  | [], _ => none
  | (k, v) :: tl, key => if k = key then some v else slookup tl key

/-- Model of `EventData` in `thread_instrument.h`: the per (thread, event-code) record.
The constructor zeroes `time`, `invocations` and `currentlyRunning`;
`lastInvocation` is a default-constructed `time_point` (the epoch, `0`). -/
structure EventData where
  time : Int
  lastInvocation : Int
  invocations : Nat
  currentlyRunning : Bool
deriving DecidableEq

/-- A default-constructed `EventData`. -/
def EventData.init : EventData := ⟨0, 0, 0, false⟩

/-- Model of `Int2EventDataMap_t`: a thread's private profiling table. -/
abbrev Int2EventDataMap : Type := List (Int × EventData)

/-- Reading `m[k]`: the entry for `k`, or a default-constructed `EventData` when
`k` is absent (as `std::map::operator[]` default-inserts before use). -/
def getED (m : Int2EventDataMap) (k : Int) : EventData :=
  (slookup m k).getD EventData.init

/-- Store `v` at key `k`: replace the entry in place when present, else add
one (the write half of `std::map::operator[]`). -/
def storeED : Int2EventDataMap → Int → EventData → Int2EventDataMap
  | [], k, v => [(k, v)]
  | (k', v') :: tl, k, v =>
      if k' = k then (k, v) :: tl else (k', v') :: storeED tl k v

/-- Model of `internal::begin_activity_inner`: `EventData& ed = m[activity];
assert(!ed.currentlyRunning); ed.invocations++;
ed.lastInvocation = clock_t::now(); ed.currentlyRunning = true;`.
`now` is the clock reading; release builds skip the assertion, so the update
is total. -/
def begin_activity_inner (now : Int) (activity : Int) (m : Int2EventDataMap) :
    Int2EventDataMap :=
  let ed := getED m activity
  storeED m activity
    { ed with invocations := ed.invocations + 1, lastInvocation := now,
              currentlyRunning := true }

/-- Model of `internal::end_activity_inner`: find the activity (`assert(it != m.end())`,
`assert(ed.currentlyRunning)`), add `now - ed.lastInvocation` to `ed.time`,
set `lastInvocation = now`, clear `currentlyRunning`.  The assertion-failure
path (entry absent) is modelled as a no-op; it is unreachable under the
claims' preconditions. -/
def end_activity_inner (now : Int) (activity : Int) (m : Int2EventDataMap) :
    Int2EventDataMap :=
  match slookup m activity with
  | none => m
  | some ed =>
      storeED m activity
        { ed with time := ed.time + (now - ed.lastInvocation),
                  lastInvocation := now, currentlyRunning := false }

/-- Model of `EventData::operator+=`: accumulate `time` and `invocations`, OR
`currentlyRunning`; `lastInvocation` is not touched. -/
def EventData.accum (a b : EventData) : EventData :=
  { a with time := a.time + b.time, invocations := a.invocations + b.invocations,
           currentlyRunning := a.currentlyRunning || b.currentlyRunning }

/-- Model of `IdentifiedEventData`: a registered thread's dense index `id_` and its
private profiling table. -/
structure IdentifiedEventData where
  id_ : Nat
  int2EventDataMap_ : Int2EventDataMap
deriving DecidableEq

/-- The global thread-registry state: `GlobalEventMap` (a `ConcurrentSMap`
backed by a lock-free list whose `emplace` pushes the new entry at the head)
together with the `NProfiledThreads` counter. -/
structure RegState where
  entries : List (Nat × IdentifiedEventData)
  counter : Nat
deriving DecidableEq

/-- Model of `GetThreadRawData`: look the calling thread up; on a miss, emplace a fresh
`IdentifiedEventData(NProfiledThreads++)` at the head of the map. -/
def GetThreadRawData (rs : RegState) (tid : Nat) : IdentifiedEventData × RegState :=
  match slookup rs.entries tid with
  | some ide => (ide, rs)
  | none =>
      let ide : IdentifiedEventData := ⟨rs.counter, []⟩
      (ide, ⟨(tid, ide) :: rs.entries, rs.counter + 1⟩)

/-- Model of `nThreadsWithActivity`: `GlobalEventMap.unsafe_size()`. -/
def nThreadsWithActivity (rs : RegState) : Nat := rs.entries.length

/-- Model of `getThreadDataByNumber`: linear scan for the entry whose `id_` equals `n`;
the `assert(it != GlobalEventMap.end())` failure path is modelled by the empty
table (it is unreachable for the indices the library uses). -/
def getThreadDataByNumber (rs : RegState) (n : Nat) : Int2EventDataMap :=
  match rs.entries.find? (fun e => e.2.id_ == n) with
  | some e => e.2.int2EventDataMap_
  | none => []

/-- The step `EventData& r = m[(*it).first]; r += (*it).second;` inside
`getAllActivity`: default-insert then accumulate. -/
def accumInto (m : Int2EventDataMap) (k : Int) (v : EventData) : Int2EventDataMap :=
  storeED m k ((getED m k).accum v)

/-- The inner loop of `getAllActivity`: fold one thread's whole table into the
accumulator map. -/
def mergeInto (acc m2 : Int2EventDataMap) : Int2EventDataMap :=
  m2.foldl (fun a kv => accumInto a kv.1 kv.2) acc

/-- The sequence of tables `getAllActivity` visits: `getThreadDataByNumber i`
for `i = 0 .. nThreadsWithActivity - 1`. -/
def profilesOf (rs : RegState) : List Int2EventDataMap :=
  (List.range (nThreadsWithActivity rs)).map (getThreadDataByNumber rs)

/-- The body of `getAllActivity` over that sequence: return `{}` when it is
empty, else copy the first table and fold the rest into it with `+=`. -/
def getAllActivityFrom : List Int2EventDataMap → Int2EventDataMap
  | [] => []
  | m0 :: rest => rest.foldl mergeInto m0

/-- Model of `getAllActivity`: `if(!n) return {}` then accumulate the tables of threads
`0 .. n-1`. -/
def getAllActivity (rs : RegState) : Int2EventDataMap :=
  getAllActivityFrom (profilesOf rs)

/-- Model of `clearAllActivity`: `it->second.int2EventDataMap_.clear()` for every
registry entry; the entries themselves, their ids and the counter stay. -/
def clearAllActivity (rs : RegState) : RegState :=
  ⟨rs.entries.map (fun e => (e.1, ⟨e.2.id_, []⟩)), rs.counter⟩

/-- Model of `SafeEventCollector::registerEvent` (sequential semantics; the
reader/writer spinlock and the double-checked re-lookup only serialize the
accesses): look the name up by string content (the `ltstr` comparator uses
`strcmp`, so distinct `char *` addresses with equal contents hit the same
entry); when absent, assign `num = eventNames_.size()` and insert.  The state
is kept in registration order, so a list position is its registration rank. -/
def registerEvent (s : List (String × Nat)) (name : String) :
    List (String × Nat) × Nat :=
  match slookup s name with
  | some num => (s, num)
  | none => (s ++ [(name, s.length)], s.length)

/-- A whole sequence of `getEventNumber` calls folded over the empty registry
the process starts with. -/
def registerAll (names : List String) : List (String × Nat) :=
  names.foldl (fun s n => (registerEvent s n).1) []

/-- Model of `LogEvent`: the logging thread's id, the `time_point` `when_` (left
default-constructed at the epoch, `0`, by the untimed constructor), the opaque
payload `data_` and the event code. -/
structure LogEvent where
  id_ : Nat
  when_ : Int
  data_ : Int
  event_id_ : Nat
deriving DecidableEq

/-- Model of `internal::log_inner`: when the log is not locked, push an untimed entry
(`when_` at the epoch) at the head of `Log`. -/
def log_inner (event : Nat) (data : Int) (tid : Nat) (locked : Bool)
    (log : List LogEvent) : List LogEvent :=
  if locked then log else ⟨tid, 0, data, event⟩ :: log

/-- Model of `internal::timed_log_inner`: as `log_inner` but stamping `clock_t::now()`. -/
def timed_log_inner (now : Int) (event : Nat) (data : Int) (tid : Nat)
    (locked : Bool) (log : List LogEvent) : List LogEvent :=
  if locked then log else ⟨tid, now, data, event⟩ :: log

/-- A single thread issuing a sequence of untimed `log(event, data)` calls,
oldest first; each `log_inner` pushes at the head of the global log. -/
def pushAllUntimed (tid : Nat) (entries : List (Nat × Int))
    (log : List LogEvent) : List LogEvent :=
  entries.foldl (fun lg e => log_inner e.1 e.2 tid false lg) log

/-- Model of `LogPrinter_t`: renders one entry's payload. -/
abbrev LogPrinter_t : Type := Int → String

/-- Model of `AllLogPrinter_t`: renders (event code, payload). -/
abbrev AllLogPrinter_t : Type := Nat → Int → String

/-- Model of `registerLogPrinter(int event, LogPrinter_t printer)`: a null printer
erases the specific mapping (`LogPrinters.erase(event)`), otherwise
`LogPrinters[event] = printer` overwrites it.  The
`std::map<unsigned, LogPrinter_t>` is modelled by its lookup function. -/
def registerLogPrinter (printers : Nat → Option LogPrinter_t) (event : Nat)
    (p : Option LogPrinter_t) : Nat → Option LogPrinter_t :=
  match p with
  | none => fun k => if k = event then none else printers k
  | some f => fun k => if k = event then some f else printers k

/-- One output line of `dumpLog`: the two `sprintf` branches are
`"Th %3u %lf %s\n"` (time field present) and `"Th %3u %s\n"` (absent). -/
structure RenderedLine where
  thread_num : Nat
  whenField : Option Int
  event_representation : String
deriving DecidableEq

/-- The rendering of one popped entry `l` inside `dumpLog`, with the thread
number already resolved: `when = l.when_ - StartExecutionTimePoint`; the
specific printer registered for `l.event_id_` when there is one, else the
generic printer; the time field is emitted exactly when `when > 0.`. -/
def renderLine (start : Int) (printers : Nat → Option LogPrinter_t)
    (allPrinter : AllLogPrinter_t) (thread_num : Nat) (l : LogEvent) :
    RenderedLine :=
  let when : Int := l.when_ - start
  let rep : String :=
    match printers l.event_id_ with
    | some pr => pr l.data_
    | none => allPrinter l.event_id_ l.data_
  if 0 < when then ⟨thread_num, some when, rep⟩ else ⟨thread_num, none, rep⟩

/-- The `while (Log.try_head_pop(l))` loop of `dumpLog`: pop and render from
the head; `GetThreadRawData(l.id_)` resolves (and, for a thread the registry
has never seen, creates) the thread number, threading the registry state. -/
def dumpLoop (start : Int) (printers : Nat → Option LogPrinter_t)
    (allPrinter : AllLogPrinter_t) :
    RegState → List LogEvent → List RenderedLine × RegState
  | rs, [] => ([], rs)
  | rs, l :: rest =>
      let p := GetThreadRawData rs l.id_
      let line := renderLine start printers allPrinter p.1.id_ l
      let r := dumpLoop start printers allPrinter p.2 rest
      (line :: r.1, r.2)

/-- The size-limiting loop of `dumpLog`:
`const size_t cur_size = Log.unsafe_size();`
`while (LogLimit < cur_size) { unsigned how_many = cur_size - LogLimit;`
`while (how_many--) Log.try_head_pop(l); }`.
`cur_size` is captured once, before the loop, and never refreshed, so the
guard is re-tested against the stale count.  `fuel` bounds how many guard-true
iterations we run; `none` means the bound was exhausted with the guard still
true, i.e. the loop has not terminated within `fuel` iterations.  Popping
`how_many` entries from the head is `List.drop` (`try_head_pop` on an empty
list is a no-op). -/
def trimLoop : Nat → Nat → Nat → List LogEvent → Option (List LogEvent)
  | 0, limit, cur_size, log => if limit < cur_size then none else some log
  | fuel + 1, limit, cur_size, log =>
      if limit < cur_size then
        trimLoop fuel limit cur_size (log.drop (cur_size - limit))
      else some log

/-- The `if (LogLimit) { ... }` block of `dumpLog`, applied to the
already-reversed log. -/
def trimLog (fuel limit : Nat) (log : List LogEvent) : Option (List LogEvent) :=
  if limit = 0 then some log else trimLoop fuel limit log.length log

/-- Model of `dumpLog`: `Log.reverse()` turns the LIFO stack into chronological order,
the size-limiting block runs, then every surviving entry is popped from the
head and rendered in order.  `none` propagates non-termination of the
size-limiting loop within `fuel` iterations. -/
def dumpLog (fuel : Nat) (start : Int) (limit : Nat)
    (printers : Nat → Option LogPrinter_t) (allPrinter : AllLogPrinter_t)
    (rs : RegState) (log : List LogEvent) :
    Option (List RenderedLine × RegState) :=
  match trimLog fuel limit log.reverse with
  | none => none
  | some l2 => some (dumpLoop start printers allPrinter rs l2)

/-- Keys of a profiling table are pairwise distinct (automatic for
`std::map`; stated as an explicit invariant of the assoc-list model). -/
def keysNodup (m : Int2EventDataMap) : Prop := (m.map Prod.fst).Nodup

instance keysNodupDecidable (m : Int2EventDataMap) : Decidable (keysNodup m) :=
  List.nodupDecidable (m.map Prod.fst)

/-! ### Helper lemmas -/

theorem slookup_eq_none {α β : Type} [DecidableEq α] (m : List (α × β)) (k : α)
    (h : k ∉ m.map Prod.fst) : slookup m k = none := by
  induction m with
  | nil => rfl
  | cons hd tl ih =>
      obtain ⟨k', v'⟩ := hd
      simp only [List.map_cons, List.mem_cons, not_or] at h
      have hne : ¬ (k' = k) := fun hk => h.1 hk.symm
      simp only [slookup, if_neg hne]
      exact ih h.2

theorem slookup_append_of_none {α β : Type} [DecidableEq α]
    (a b : List (α × β)) (k : α) (h : slookup a k = none) :
    slookup (a ++ b) k = slookup b k := by
  induction a with
  | nil => rfl
  | cons hd tl ih =>
      obtain ⟨k', v'⟩ := hd
      by_cases hk : k' = k
      · simp [slookup, hk] at h
      · simp only [slookup, if_neg hk] at h
        simpa [slookup, if_neg hk] using ih h

theorem slookup_storeED_self (m : Int2EventDataMap) (k : Int) (v : EventData) :
    slookup (storeED m k v) k = some v := by
  induction m with
  | nil => simp [storeED, slookup]
  | cons hd tl ih =>
      obtain ⟨k', v'⟩ := hd
      by_cases hk : k' = k
      · simp [storeED, hk, slookup]
      · simpa [storeED, hk, slookup] using ih

theorem slookup_storeED_ne (m : Int2EventDataMap) (k k' : Int) (v : EventData)
    (h : k' ≠ k) : slookup (storeED m k v) k' = slookup m k' := by
  induction m with
  | nil =>
      simp only [storeED, slookup]
      rw [if_neg (fun hk => h hk.symm)]
  | cons hd tl ih =>
      obtain ⟨k0, v0⟩ := hd
      by_cases hk : k0 = k
      · subst hk
        have hne : ¬ (k0 = k') := fun hk => h hk.symm
        simp [storeED, slookup, hne]
      · by_cases hk' : k0 = k'
        · simp [storeED, hk, slookup, hk', h]
        · simp [storeED, hk, slookup, hk', h, ih]

theorem trimLoop_stuck (fuel limit cur_size : Nat) (log : List LogEvent)
    (h : limit < cur_size) : trimLoop fuel limit cur_size log = none := by
  induction fuel generalizing log with
  | zero => simp [trimLoop, h]
  | succ n ih => simp [trimLoop, h, ih]

/-! ### Claim theorems -/

/-- C1: refuted by the code — with a configured limit `K = 1` smaller than the
`N = 2` untimed entries a single thread pushed, `dumpLog` never yields the `K`
most recently pushed entries: the size-limiting loop re-tests
`LogLimit < cur_size` against a size captured once before the loop, so for
every iteration bound the loop is still running and no line is ever rendered.
This contradicts the code's own comment that only the last `LogLimit` entries
are dumped. -/
theorem dumpLog_limit_smaller_never_yields (fuel : Nat) :
    dumpLog fuel 0 1 (fun _ => none) (fun _ _ => "") ⟨[], 0⟩
      (pushAllUntimed 4 [(0, 0), (1, 1)] []) = none := by
  have hlen :
      (pushAllUntimed 4 [(0, 0), (1, 1)] ([] : List LogEvent)).reverse.length = 2 := rfl
  unfold dumpLog trimLog
  rw [hlen, if_neg (by omega : ¬ (1 = 0)), trimLoop_stuck fuel 1 2 _ (by omega)]

/-- C2: refuted by the code — the drain is not total.  Whenever a nonzero
configured limit is smaller than the number of stored entries, the
size-limiting loop of `dumpLog` compares the limit against a size captured
once before the loop and never refreshed, so for every iteration bound `fuel`
the loop has not terminated. -/
theorem dumpLog_not_total_of_limit_lt_size (fuel : Nat) (start : Int)
    (limit : Nat) (printers : Nat → Option LogPrinter_t)
    (allPrinter : AllLogPrinter_t) (rs : RegState) (log : List LogEvent)
    (h0 : 0 < limit) (h1 : limit < log.length) :
    dumpLog fuel start limit printers allPrinter rs log = none := by
  unfold dumpLog trimLog
  rw [List.length_reverse, if_neg (by omega : ¬ (limit = 0)),
    trimLoop_stuck fuel limit log.length _ h1]

/-- Witness for the C2 refutation: `limit = 1` over a concrete three-entry
log, with the iteration bound instantiated at `9`. -/
theorem dumpLog_not_total_witness :
    0 < 1
    ∧ 1 < ([⟨0, 0, 5, 2⟩, ⟨0, 0, 6, 2⟩, ⟨0, 0, 7, 2⟩] : List LogEvent).length
    ∧ dumpLog 9 0 1 (fun _ => none) (fun _ _ => "") ⟨[], 0⟩
        [⟨0, 0, 5, 2⟩, ⟨0, 0, 6, 2⟩, ⟨0, 0, 7, 2⟩] = none :=
  ⟨by decide, by decide,
    dumpLog_not_total_of_limit_lt_size 9 0 1 (fun _ => none) (fun _ _ => "")
      ⟨[], 0⟩ [⟨0, 0, 5, 2⟩, ⟨0, 0, 6, 2⟩, ⟨0, 0, 7, 2⟩] (by decide) (by decide)⟩

theorem pushAllUntimed_eq (tid : Nat) (entries : List (Nat × Int)) :
    ∀ log : List LogEvent,
      pushAllUntimed tid entries log
        = (entries.map (fun e => (⟨tid, 0, e.2, e.1⟩ : LogEvent))).reverse ++ log := by
  induction entries with
  | nil => intro log; simp [pushAllUntimed]
  | cons e tl ih =>
      intro log
      simp only [pushAllUntimed, List.foldl_cons, List.map_cons, List.reverse_cons,
        List.append_assoc, List.singleton_append]
      exact ih (log_inner e.1 e.2 tid false log)

theorem GetThreadRawData_stable (rs : RegState) (tid : Nat) :
    GetThreadRawData (GetThreadRawData rs tid).2 tid
      = ((GetThreadRawData rs tid).1, (GetThreadRawData rs tid).2) := by
  unfold GetThreadRawData
  cases h : slookup rs.entries tid with
  | some ide => simp [h]
  | none => simp [slookup]

theorem dumpLoop_single_tid (start : Int) (printers : Nat → Option LogPrinter_t)
    (allPrinter : AllLogPrinter_t) (tid : Nat) (entries : List (Nat × Int)) :
    ∀ rs : RegState,
      (dumpLoop start printers allPrinter rs
          (entries.map (fun e => (⟨tid, 0, e.2, e.1⟩ : LogEvent)))).1
        = entries.map (fun e => renderLine start printers allPrinter
            (GetThreadRawData rs tid).1.id_ ⟨tid, 0, e.2, e.1⟩) := by
  induction entries with
  | nil => intro rs; rfl
  | cons e tl ih =>
      intro rs
      simp only [List.map_cons, dumpLoop]
      have hst : (GetThreadRawData (GetThreadRawData rs tid).2 tid).1
          = (GetThreadRawData rs tid).1 := by
        rw [GetThreadRawData_stable]
      rw [ih (GetThreadRawData rs tid).2, hst]

/-- C3: confirmed — with no limit configured (`logLimit = 0`), a single thread
pushing `N` untimed entries and then draining produces exactly `N` rendered
lines, the `i`-th line being the rendering of the `i`-th pushed entry (with
the dense index the registry resolves — or, for a thread the drain meets
first, assigns — for that thread): the LIFO log is reversed in place before
the pop-from-head loop, restoring push order. -/
theorem dumpLog_no_limit_push_order (fuel : Nat) (start : Int)
    (printers : Nat → Option LogPrinter_t) (allPrinter : AllLogPrinter_t)
    (rs : RegState) (tid : Nat) (entries : List (Nat × Int)) :
    (dumpLog fuel start 0 printers allPrinter rs (pushAllUntimed tid entries [])).map
        Prod.fst
      = some (entries.map (fun e => renderLine start printers allPrinter
          (GetThreadRawData rs tid).1.id_ ⟨tid, 0, e.2, e.1⟩))
    ∧ (entries.map (fun e => renderLine start printers allPrinter
          (GetThreadRawData rs tid).1.id_ ⟨tid, 0, e.2, e.1⟩)).length
        = entries.length := by
  refine ⟨?_, by simp⟩
  unfold dumpLog trimLog
  rw [if_pos rfl, pushAllUntimed_eq tid entries []]
  simp only [List.append_nil, List.reverse_reverse]
  simp [dumpLoop_single_tid start printers allPrinter tid entries rs]

/-- C4: confirmed — on one thread, a `begin(code)` followed by the matching
`end(code)` (with the code not currently running beforehand, and clock
readings `t1 ≤ t2` for the monotonic clock) leaves `currentlyRunning` false,
increments `invocations` by exactly one, and adds the non-negative difference
`t2 - t1` of the two clock readings to `time`. -/
theorem begin_end_profile_update (m : Int2EventDataMap) (code : Int)
    (t1 t2 : Int) (_hrun : (getED m code).currentlyRunning = false)
    (hmono : t1 ≤ t2) :
    (getED (end_activity_inner t2 code (begin_activity_inner t1 code m)) code).currentlyRunning
        = false
    ∧ (getED (end_activity_inner t2 code (begin_activity_inner t1 code m)) code).invocations
        = (getED m code).invocations + 1
    ∧ (getED (end_activity_inner t2 code (begin_activity_inner t1 code m)) code).time
        = (getED m code).time + (t2 - t1)
    ∧ 0 ≤ t2 - t1 := by
  have h1 :
      slookup (begin_activity_inner t1 code m) code
        = some ⟨(getED m code).time, t1, (getED m code).invocations + 1, true⟩ := by
    unfold begin_activity_inner
    exact slookup_storeED_self m code _
  have h2 :
      end_activity_inner t2 code (begin_activity_inner t1 code m)
        = storeED (begin_activity_inner t1 code m) code
            ⟨(getED m code).time + (t2 - t1), t2, (getED m code).invocations + 1, false⟩ := by
    unfold end_activity_inner
    rw [h1]
  rw [h2]
  simp only [getED, slookup_storeED_self, Option.getD_some]
  exact ⟨trivial, trivial, trivial, by omega⟩

/-- Witness for C4 at a concrete profile: code `2` idle in the empty table,
begin at clock `3`, end at clock `7`. -/
theorem begin_end_profile_update_witness :
    (getED [] 2).currentlyRunning = false
    ∧ (3 : Int) ≤ 7
    ∧ ((getED (end_activity_inner 7 2 (begin_activity_inner 3 2 [])) 2).currentlyRunning
          = false
      ∧ (getED (end_activity_inner 7 2 (begin_activity_inner 3 2 [])) 2).invocations
          = (getED [] 2).invocations + 1
      ∧ (getED (end_activity_inner 7 2 (begin_activity_inner 3 2 [])) 2).time
          = (getED [] 2).time + (7 - 3)
      ∧ (0 : Int) ≤ 7 - 3) :=
  ⟨by decide, by decide, begin_end_profile_update [] 2 3 7 (by decide) (by decide)⟩

theorem getED_accumInto_self (m : Int2EventDataMap) (k : Int) (v : EventData) :
    getED (accumInto m k v) k = (getED m k).accum v := by
  simp [accumInto, getED, slookup_storeED_self]

theorem getED_accumInto_ne (m : Int2EventDataMap) (k k' : Int) (v : EventData)
    (h : k' ≠ k) : getED (accumInto m k v) k' = getED m k' := by
  simp [accumInto, getED, slookup_storeED_ne m k k' _ h]

theorem mergeInto_fields (m2 : Int2EventDataMap) :
    ∀ (acc : Int2EventDataMap) (k : Int), keysNodup m2 →
      (getED (mergeInto acc m2) k).time = (getED acc k).time + (getED m2 k).time
      ∧ (getED (mergeInto acc m2) k).invocations
          = (getED acc k).invocations + (getED m2 k).invocations
      ∧ (getED (mergeInto acc m2) k).currentlyRunning
          = ((getED acc k).currentlyRunning || (getED m2 k).currentlyRunning) := by
  induction m2 with
  | nil =>
      intro acc k _
      simp [mergeInto, getED, slookup, EventData.init]
  | cons hd tl ih =>
      intro acc k hnd
      obtain ⟨k0, v0⟩ := hd
      have hnd' : keysNodup tl := by
        simpa [keysNodup] using (List.nodup_cons.mp hnd).2
      have hk0 : k0 ∉ tl.map Prod.fst := by
        simpa [keysNodup] using (List.nodup_cons.mp hnd).1
      have hfold : mergeInto acc ((k0, v0) :: tl) = mergeInto (accumInto acc k0 v0) tl := by
        simp [mergeInto]
      rw [hfold]
      obtain ⟨iht, ihi, ihr⟩ := ih (accumInto acc k0 v0) k hnd'
      by_cases hk : k = k0
      · subst hk
        have htl : getED tl k = EventData.init := by
          simp [getED, slookup_eq_none tl k hk0]
        rw [iht, ihi, ihr, getED_accumInto_self, htl]
        simp [getED, slookup, EventData.accum, EventData.init, Int.add_assoc,
          Bool.or_assoc]
      · have hk' : ¬ (k0 = k) := fun h => hk h.symm
        have hne : getED ((k0, v0) :: tl) k = getED tl k := by
          simp [getED, slookup, hk']
        rw [iht, ihi, ihr, getED_accumInto_ne acc k0 k v0 hk, hne]
        exact ⟨rfl, rfl, rfl⟩

theorem foldProfiles_fields (ps : List Int2EventDataMap) :
    ∀ (acc : Int2EventDataMap) (k : Int), (∀ p ∈ ps, keysNodup p) →
      (getED (ps.foldl mergeInto acc) k).time
          = (getED acc k).time + (ps.map (fun p => (getED p k).time)).sum
      ∧ (getED (ps.foldl mergeInto acc) k).invocations
          = (getED acc k).invocations + (ps.map (fun p => (getED p k).invocations)).sum
      ∧ (getED (ps.foldl mergeInto acc) k).currentlyRunning
          = ((getED acc k).currentlyRunning
              || ps.any (fun p => (getED p k).currentlyRunning)) := by
  induction ps with
  | nil => intro acc k _; simp
  | cons p0 tl ih =>
      intro acc k h
      obtain ⟨iht, ihi, ihr⟩ :=
        ih (mergeInto acc p0) k (fun p hp => h p (List.mem_cons_of_mem p0 hp))
      obtain ⟨mt, mi, mr⟩ := mergeInto_fields p0 acc k (h p0 (List.mem_cons_self p0 tl))
      simp only [List.foldl_cons, List.map_cons, List.sum_cons, List.any_cons]
      rw [iht, ihi, ihr, mt, mi, mr]
      exact ⟨by omega, by omega, by rw [Bool.or_assoc]⟩

/-- C5: confirmed — for every registry state (with the `std::map` invariant
that each thread's table has distinct keys) and every event code, the
aggregate `getAllActivity` returns an `EventData` whose `invocations` is the
sum of the per-thread invocation counts, whose `time` is the sum of the
per-thread times, and whose `currentlyRunning` is the OR of the per-thread
flags, over the threads `0 .. nThreadsWithActivity - 1` the code iterates. -/
theorem getAllActivity_is_threadwise_sum (rs : RegState) (k : Int)
    (h : ∀ p ∈ profilesOf rs, keysNodup p) :
    (getED (getAllActivity rs) k).invocations
        = ((profilesOf rs).map (fun p => (getED p k).invocations)).sum
    ∧ (getED (getAllActivity rs) k).time
        = ((profilesOf rs).map (fun p => (getED p k).time)).sum
    ∧ (getED (getAllActivity rs) k).currentlyRunning
        = (profilesOf rs).any (fun p => (getED p k).currentlyRunning) := by
  unfold getAllActivity
  cases hps : profilesOf rs with
  | nil => simp [getAllActivityFrom, getED, slookup, EventData.init]
  | cons p0 rest =>
      rw [hps] at h
      obtain ⟨ft, fi, fr⟩ :=
        foldProfiles_fields rest p0 k (fun p hp => h p (List.mem_cons_of_mem p0 hp))
      simp only [getAllActivityFrom, List.map_cons, List.sum_cons, List.any_cons]
      exact ⟨fi, ft, fr⟩

/-- Witness for C5: two registered threads (dense indices 0 and 1) with
overlapping tables for event code 1. -/
theorem getAllActivity_is_threadwise_sum_witness :
    (∀ p ∈ profilesOf
        ⟨[(10, ⟨0, [(1, ⟨2, 0, 3, false⟩)]⟩), (11, ⟨1, [(1, ⟨4, 0, 5, true⟩)]⟩)], 2⟩,
      keysNodup p)
    ∧ ((getED (getAllActivity
            ⟨[(10, ⟨0, [(1, ⟨2, 0, 3, false⟩)]⟩), (11, ⟨1, [(1, ⟨4, 0, 5, true⟩)]⟩)], 2⟩) 1).invocations
          = ((profilesOf
              ⟨[(10, ⟨0, [(1, ⟨2, 0, 3, false⟩)]⟩), (11, ⟨1, [(1, ⟨4, 0, 5, true⟩)]⟩)], 2⟩).map
              (fun p => (getED p 1).invocations)).sum
      ∧ (getED (getAllActivity
            ⟨[(10, ⟨0, [(1, ⟨2, 0, 3, false⟩)]⟩), (11, ⟨1, [(1, ⟨4, 0, 5, true⟩)]⟩)], 2⟩) 1).time
          = ((profilesOf
              ⟨[(10, ⟨0, [(1, ⟨2, 0, 3, false⟩)]⟩), (11, ⟨1, [(1, ⟨4, 0, 5, true⟩)]⟩)], 2⟩).map
              (fun p => (getED p 1).time)).sum
      ∧ (getED (getAllActivity
            ⟨[(10, ⟨0, [(1, ⟨2, 0, 3, false⟩)]⟩), (11, ⟨1, [(1, ⟨4, 0, 5, true⟩)]⟩)], 2⟩) 1).currentlyRunning
          = (profilesOf
              ⟨[(10, ⟨0, [(1, ⟨2, 0, 3, false⟩)]⟩), (11, ⟨1, [(1, ⟨4, 0, 5, true⟩)]⟩)], 2⟩).any
              (fun p => (getED p 1).currentlyRunning)) :=
  ⟨by decide,
    getAllActivity_is_threadwise_sum
      ⟨[(10, ⟨0, [(1, ⟨2, 0, 3, false⟩)]⟩), (11, ⟨1, [(1, ⟨4, 0, 5, true⟩)]⟩)], 2⟩ 1
      (by decide)⟩

/-- C9: confirmed — `clearAllActivity` empties the per-event table of every
registered thread and modifies nothing else: no registry entry is added or
removed (`nThreadsWithActivity` is unchanged), every thread keeps its platform
id and previously assigned dense index, and the thread counter is untouched. -/
theorem clearAllActivity_frame (rs : RegState) :
    nThreadsWithActivity (clearAllActivity rs) = nThreadsWithActivity rs
    ∧ (clearAllActivity rs).entries.map (fun e => (e.1, e.2.id_))
        = rs.entries.map (fun e => (e.1, e.2.id_))
    ∧ (clearAllActivity rs).entries.map (fun e => e.2.int2EventDataMap_)
        = List.replicate rs.entries.length []
    ∧ (clearAllActivity rs).counter = rs.counter := by
  refine ⟨by simp [clearAllActivity, nThreadsWithActivity], ?_, ?_, rfl⟩
  · simp [clearAllActivity]
  · simp [clearAllActivity, List.map_map]
    exact List.map_const' rs.entries []

/-- C10: confirmed — when no thread has registered activity, `getAllActivity`
returns the empty map (the `if(!n)` early return; no assertion is reached). -/
theorem getAllActivity_of_no_threads (rs : RegState)
    (h : nThreadsWithActivity rs = 0) : getAllActivity rs = [] := by
  unfold getAllActivity profilesOf
  rw [h]
  rfl

/-- Witness for C10: the initial registry. -/
theorem getAllActivity_of_no_threads_witness :
    nThreadsWithActivity ⟨[], 0⟩ = 0 ∧ getAllActivity ⟨[], 0⟩ = [] :=
  ⟨rfl, getAllActivity_of_no_threads ⟨[], 0⟩ rfl⟩

theorem registerEvent_register_self (s : List (String × Nat)) (n : String) :
    registerEvent (registerEvent s n).1 n = registerEvent s n := by
  cases h : slookup s n with
  | some c => simp [registerEvent, h]
  | none =>
      have happ : slookup (s ++ [(n, s.length)]) n = some s.length := by
        rw [slookup_append_of_none s [(n, s.length)] n h]
        simp [slookup]
      simp [registerEvent, h, happ]

theorem registerAll_codes_dense (names : List String) :
    (registerAll names).map Prod.snd = List.range (registerAll names).length := by
  suffices h : ∀ (ns : List String) (s : List (String × Nat)),
      s.map Prod.snd = List.range s.length →
      (ns.foldl (fun acc n => (registerEvent acc n).1) s).map Prod.snd
        = List.range (ns.foldl (fun acc n => (registerEvent acc n).1) s).length by
    exact h names [] (by simp)
  intro ns
  induction ns with
  | nil => intro s hs; simpa using hs
  | cons n tl ih =>
      intro s hs
      simp only [List.foldl_cons]
      apply ih
      cases h : slookup s n with
      | some c => simpa [registerEvent, h] using hs
      | none =>
          simp only [registerEvent, h]
          simp [List.range_succ, hs]

/-- C6: confirmed — event-name interning is idempotent (registering a name
that the registry already holds — lookup is by string content, via the
`strcmp` comparator — returns the code assigned before and leaves the registry
unchanged), and after any sequence of registrations the assigned codes are
exactly `0, 1, ..., size-1` in registration order, so codes are dense from `0`
and never reused. -/
theorem registerEvent_idempotent_and_dense (names : List String) (n : String) :
    registerEvent (registerEvent (registerAll names) n).1 n
        = registerEvent (registerAll names) n
    ∧ (registerAll names).map Prod.snd = List.range (registerAll names).length :=
  ⟨registerEvent_register_self (registerAll names) n, registerAll_codes_dense names⟩

/-- C7 counterexample: an entry logged WITH timing requested
(`timed_log_inner`) at a clock reading equal to `StartExecutionTimePoint`
(here both are `5`, so `when = 0`) fails the `when > 0.` test in `dumpLog` and
is rendered WITHOUT the time-in-seconds field — refuting "the time field is
present iff the entry was logged with timing requested". -/
theorem timed_entry_rendered_without_time_field :
    dumpLog 0 5 0 (fun _ => none) (fun _ _ => "E") ⟨[], 0⟩
        (timed_log_inner 5 2 3 7 false [])
      = some ([⟨0, none, "E"⟩], ⟨[(7, ⟨0, []⟩)], 1⟩) := by
  decide

/-- C7 amended & confirmed: `dumpLog` emits the time field exactly when the
entry's stored timestamp minus `StartExecutionTimePoint` is strictly
positive.  Hence an untimed entry (epoch timestamp `0`, process start at or
after the epoch) is never rendered with the field, while a timed entry logged
at a clock reading strictly after process start always is (with value
`now - start`); a timed entry logged at a reading not after process start is
rendered without it (see the counterexample). -/
theorem time_field_iff_when_positive (fuel : Nat) (start now : Int) (ev : Nat)
    (d : Int) (tid tnum : Nat) (l : LogEvent)
    (printers : Nat → Option LogPrinter_t) (allPrinter : AllLogPrinter_t)
    (rs : RegState) (h0 : 0 ≤ start) (h1 : start < now) :
    (dumpLog fuel start 0 printers allPrinter rs (log_inner ev d tid false [])).map
        (fun r => r.1.map RenderedLine.whenField) = some [none]
    ∧ (dumpLog fuel start 0 printers allPrinter rs
          (timed_log_inner now ev d tid false [])).map
        (fun r => r.1.map RenderedLine.whenField) = some [some (now - start)]
    ∧ (renderLine start printers allPrinter tnum l).whenField
        = (if 0 < l.when_ - start then some (l.when_ - start) else none) := by
  refine ⟨?_, ?_, ?_⟩
  · have hw : ¬ (start < (0 : Int)) := by omega
    simp [dumpLog, trimLog, log_inner, dumpLoop, renderLine, hw]
  · simp [dumpLog, trimLog, timed_log_inner, dumpLoop, renderLine, h1]
  · simp only [renderLine]
    split <;> rfl

/-- Witness for the amended C7: start `1`, timed entry at clock `3`. -/
theorem time_field_iff_when_positive_witness :
    (0 : Int) ≤ 1 ∧ (1 : Int) < 3
    ∧ ((dumpLog 0 1 0 (fun _ => none) (fun _ _ => "E") ⟨[], 0⟩
            (log_inner 2 9 4 false [])).map
          (fun r => r.1.map RenderedLine.whenField) = some [none]
      ∧ (dumpLog 0 1 0 (fun _ => none) (fun _ _ => "E") ⟨[], 0⟩
            (timed_log_inner 3 2 9 4 false [])).map
          (fun r => r.1.map RenderedLine.whenField) = some [some (3 - 1)]
      ∧ (renderLine 1 (fun _ => none) (fun _ _ => "E") 0 ⟨4, 3, 9, 2⟩).whenField
          = (if 0 < (3 : Int) - 1 then some ((3 : Int) - 1) else none)) :=
  ⟨by decide, by decide,
    time_field_iff_when_positive 0 1 3 2 9 4 0 ⟨4, 3, 9, 2⟩ (fun _ => none)
      (fun _ _ => "E") ⟨[], 0⟩ (by decide) (by decide)⟩

theorem renderLine_representation (start : Int)
    (printers : Nat → Option LogPrinter_t) (allPrinter : AllLogPrinter_t)
    (tnum : Nat) (l : LogEvent) :
    (renderLine start printers allPrinter tnum l).event_representation
      = match printers l.event_id_ with
        | some pr => pr l.data_
        | none => allPrinter l.event_id_ l.data_ := by
  simp only [renderLine]
  split <;> rfl

theorem dumpLoop_representations (start : Int)
    (printers : Nat → Option LogPrinter_t) (allPrinter : AllLogPrinter_t) :
    ∀ (rs : RegState) (log : List LogEvent),
      (dumpLoop start printers allPrinter rs log).1.map
          RenderedLine.event_representation
        = log.map (fun l =>
            match printers l.event_id_ with
            | some pr => pr l.data_
            | none => allPrinter l.event_id_ l.data_) := by
  intro rs log
  induction log generalizing rs with
  | nil => rfl
  | cons l tl ih =>
      simp only [dumpLoop, List.map_cons]
      rw [renderLine_representation, ih]

/-- C8: confirmed — after `registerLogPrinter(X, fn)` with `fn` non-null, a
drain renders an entry with code `X` via `fn`; after a subsequent
`registerLogPrinter(X, nullptr)` (which erases the specific mapping) the same
drain renders it via the generic fallback printer again; and the last
registration for a code always wins (the printer table maps `X` to exactly
what the last registration installed). -/
theorem registerLogPrinter_roundtrip (printers : Nat → Option LogPrinter_t)
    (X : Nat) (f : LogPrinter_t) (allPrinter : AllLogPrinter_t) (fuel : Nat)
    (start w d : Int) (tid : Nat) (rs : RegState)
    (q : Nat → Option LogPrinter_t) (p2 : Option LogPrinter_t) :
    (dumpLog fuel start 0 (registerLogPrinter printers X (some f)) allPrinter rs
        [⟨tid, w, d, X⟩]).map (fun r => r.1.map RenderedLine.event_representation)
      = some [f d]
    ∧ (dumpLog fuel start 0
          (registerLogPrinter (registerLogPrinter printers X (some f)) X none)
          allPrinter rs [⟨tid, w, d, X⟩]).map
        (fun r => r.1.map RenderedLine.event_representation)
      = some [allPrinter X d]
    ∧ registerLogPrinter q X p2 X = p2 := by
  refine ⟨?_, ?_, ?_⟩
  · simp [dumpLog, trimLog, dumpLoop_representations, registerLogPrinter]
  · simp [dumpLog, trimLog, dumpLoop_representations, registerLogPrinter]
  · cases p2 <;> simp [registerLogPrinter]

end ThreadInstrument
